import Mathlib

/-!
Verification development for the kenpompy team-page extraction engine
(`kenpompy/team.py`).  The Python pipeline is shallowly embedded: pandas
dataframes become lists of records, dataframe cells become `Option String`
(with `none` playing the role of NaN), floats become `ℚ`, and Python
exceptions become `Option`/abort values.
-/

namespace Kenpompy

/-- A row of the schedule table after `get_schedule`'s column tidying:
the eleven raw columns renamed to
`[Date, Team Rank, Opponent Rank, Opponent Name, Result, Possession Number,
A, Location, Record, Conference, B]` with the decorative `A`/`B` dropped,
plus the `Postseason` column added by the segmentation step. -/
structure SchedRow where
  date : String
  teamRank : String
  oppRank : String
  oppName : String
  result : String
  possNum : String
  location : String
  record : String
  conference : String
  postseason : Option String
  deriving DecidableEq, Repr

/-- Whitespace class of the regex `\s` used in
`re.sub(r'(?:\sConference)?\sTournament.*?$', '', date)`. -/
def isWS (c : Char) : Bool := c = ' ' || c = '\t' || c = '\n' || c = '\r'

/-- Does the character list start with `\sTournament`? -/
def tourneyTail (l : List Char) : Bool :=
  match l with
  | c :: rest => isWS c && "Tournament".toList.isPrefixOf rest
  | [] => false

/-- Does the character list start with a match of `(?:\sConference)?\sTournament`? -/
def tourneyHere (l : List Char) : Bool :=
  (match l with
   | c :: rest => isWS c && ("Conference".toList.isPrefixOf rest && tourneyTail (rest.drop 10))
   | [] => false)
  || tourneyTail l

/-- Drop everything from the leftmost match of `(?:\sConference)?\sTournament.*?$`
onwards, mirroring `re.sub(r'(?:\sConference)?\sTournament.*?$', '', x)`. -/
def cleanChars : List Char → List Char
  | [] => []
  | c :: rest => if tourneyHere (c :: rest) then [] else c :: cleanChars rest

/-- Tournament-name preprocessing applied to a marker row's `Date` field. -/
def cleanName (s : String) : String := String.mk (cleanChars s.data)

/-- Substring test over character lists (Python `in` / `str.contains` with a
literal pattern). -/
def containsSub (pat : List Char) : List Char → Bool
  | [] => pat.isEmpty
  | c :: t => pat.isPrefixOf (c :: t) || containsSub pat t

/-- `series.str.contains(pat)` for a literal pattern. -/
def strContains (s pat : String) : Bool := containsSub pat.data s.data

/-- Marker-row predicate: the `Team Rank` field contains `Tournament` or
`Postseason`. -/
def isMarker (r : SchedRow) : Bool :=
  strContains r.teamRank "Tournament" || strContains r.teamRank "Postseason"

/-- `postseason_labels`: (row index, cleaned tournament name) pairs of all
marker rows, starting the index count at `i`. -/
def findMarkersFrom : Nat → List SchedRow → List (Nat × String)
  | _, [] => []
  | i, r :: rest =>
    if isMarker r then (i, cleanName r.date) :: findMarkersFrom (i + 1) rest
    else findMarkersFrom (i + 1) rest

/-- `postseason_labels` of a tidied schedule table. -/
def findMarkers (rows : List SchedRow) : List (Nat × String) := findMarkersFrom 0 rows

/-- Overwrite the `Postseason` field of a row. -/
def setPS (r : SchedRow) (v : Option String) : SchedRow := { r with postseason := v }

/-- `schedule_df.loc[lo:hi, 'Postseason'] = nm` over the default range index
(pandas label slices are inclusive at both ends). -/
def assignRange (rows : List SchedRow) (lo hi : Nat) (nm : String) : List SchedRow :=
  rows.enum.map (fun p => if lo ≤ p.1 ∧ p.1 ≤ hi then setPS p.2 (some nm) else p.2)

/-- `schedule_df.loc[lo:, 'Postseason'] = nm`. -/
def assignFrom (rows : List SchedRow) (lo : Nat) (nm : String) : List SchedRow :=
  rows.enum.map (fun p => if lo ≤ p.1 then setPS p.2 (some nm) else p.2)

/-- The marker-application `while` loop of `get_schedule`: every marker but the
last labels `[m_i, m_(i+1) - 1]`; the last labels from its index to the end. -/
def applyMarkers : List SchedRow → List (Nat × String) → List SchedRow
  | rows, [] => rows
  | rows, [(m, nm)] => assignFrom rows m nm
  | rows, (m, nm) :: (m2, nm2) :: rest =>
    applyMarkers (assignRange rows m (m2 - 1) nm) ((m2, nm2) :: rest)

/-- `schedule_df['Postseason'] = None`. -/
def initPostseason (rows : List SchedRow) : List SchedRow := rows.map (fun r => setPS r none)

/-- The whole segmentation stage: add the null `Postseason` column, enumerate
the markers, run the label-propagation loop. -/
def segmentRows (rows : List SchedRow) : List SchedRow :=
  applyMarkers (initPostseason rows) (findMarkers (initPostseason rows))

/-- Insert an element at position `n` (pandas `DataFrame.insert`). -/
def insertAt (n : Nat) (a : α) (l : List α) : List α := l.take n ++ a :: l.drop n

/-- Column-count reconciliation: tables of 10 columns (seasons 2010 and
earlier, missing the team-rank column) get an empty `Team Rank` cell inserted
at position 1; all other widths are left alone. -/
def widenRow (ncols : Nat) (row : List (Option String)) : List (Option String) :=
  if ncols = 10 then insertAt 1 (some "") row else row

/-- Column count after the season-drift widening. -/
def effCols (ncols : Nat) : Nat := if ncols = 10 then 11 else ncols

/-- Read cell `i` of a raw row, with `fillna('')` applied. -/
def cellStr (row : List (Option String)) (i : Nat) : String := (row.getD i none).getD ""

/-- Build a tidied schedule row from an 11-cell raw row: rename by position,
drop the decorative columns at positions 6 (`A`) and 10 (`B`), fill missing
cells with the empty string, and start with a null `Postseason`. -/
def mkRow (row : List (Option String)) : SchedRow :=
  { date := cellStr row 0, teamRank := cellStr row 1, oppRank := cellStr row 2,
    oppName := cellStr row 3, result := cellStr row 4, possNum := cellStr row 5,
    location := cellStr row 7, record := cellStr row 8, conference := cellStr row 9,
    postseason := none }

/-- The raw schedule table located on the page: a column count and the rows of
cells, `none` standing for a missing (NaN) cell. -/
structure RawTable where
  ncols : Nat
  rows : List (List (Option String))
  deriving DecidableEq, Repr

/-- Dataframe tidying of `get_schedule`: widen 10-column tables, rename the 11
columns, drop `A`/`B`, `fillna('')`.  Renaming requires exactly 11 columns
after widening; any other width raises in pandas, modelled by `none`. -/
def tidyTable (t : RawTable) : Option (List SchedRow) :=
  if effCols t.ncols = 11 then some ((t.rows.map (widenRow t.ncols)).map mkRow) else none

/-- The two row-dropping boolean selections of `get_schedule`, applied to the
label-carrying frame: keep rows whose `Date` differs from their `Result`, then
rows whose `Date` is not the header token `"Date"`. -/
def dropNonGamesL (rows : List (Nat × SchedRow)) : List (Nat × SchedRow) :=
  (rows.filter (fun p => !(p.2.date == p.2.result))).filter (fun p => !(p.2.date == "Date"))

/-- `reset_index(drop=True)`: renumber the remaining rows `0..N-1` in order. -/
def resetIndex (rows : List (Nat × SchedRow)) : List (Nat × SchedRow) := (rows.map (·.2)).enum

/-- Row dropping followed by reindexing, on the range-indexed segmented table. -/
def cleanStage (rows : List SchedRow) : List (Nat × SchedRow) :=
  resetIndex (dropNonGamesL rows.enum)

/-- The post-fetch core of `get_schedule`: tidy the located raw table, segment
it with postseason labels, drop non-game rows and reindex.  Rows are paired
with their final index. -/
def get_schedule (t : RawTable) : Option (List (Nat × SchedRow)) :=
  (tidyTable t).map (fun rows => cleanStage (segmentRows rows))

/-- The postseason label the marker list assigns to row `j`: the name of the
last marker at or before `j`, if any. -/
def labelFor (ms : List (Nat × String)) (j : Nat) : Option String :=
  ((ms.filter (fun p => decide (p.1 ≤ j))).getLast?).map (·.2)

/-- The 9 retained column positions of the 11-column layout. -/
def selIdx : List Nat := [0, 1, 2, 3, 4, 5, 7, 8, 9]

/-- Field of a tidied row by its position in the 11-column layout. -/
def fieldAt (r : SchedRow) : Nat → String
  | 0 => r.date
  | 1 => r.teamRank
  | 2 => r.oppRank
  | 3 => r.oppName
  | 4 => r.result
  | 5 => r.possNum
  | 7 => r.location
  | 8 => r.record
  | 9 => r.conference
  | _ => ""

/-- A schedule entry as consumed by `get_next_opponent` after
`set_index('Date')`; calendar dates are modelled as abstract day numbers (the
`'%a %b %d'` formatting is treated as a bijection on the dates involved). -/
structure GameEntry where
  date : Nat
  oppName : String
  result : String
  deriving DecidableEq, Repr

/-- `DATES_TO_CHECK`: the 4-day forward window starting today (inclusive). -/
def datesToCheck (today : Nat) : List Nat := (List.range 4).map (fun i => today + i)

/-- `schedule.loc[d]` on the date-indexed schedule (dates unique). -/
def schedLookup (sched : List GameEntry) (d : Nat) : Option GameEntry :=
  sched.find? (fun g => g.date == d)

/-- The window-scanning loop of `get_next_opponent`: return the first window
date's matching entry, `(None, None)` when no window date matches. -/
def scanWindow (sched : List GameEntry) : List Nat → Option String × Option String
  | [] => (none, none)
  | d :: ds =>
    match schedLookup sched d with
    | some g => (some g.oppName, some g.result)
    | none => scanWindow sched ds

/-- The body of `get_next_opponent`'s `try` block, given the fetched
schedule. -/
def get_next_opponent (sched : List GameEntry) (today : Nat) : Option String × Option String :=
  scanWindow sched (datesToCheck today)

/-- `get_next_opponent`'s retry structure: attempt `k` obtains the schedule
from `fetch k`; a failed attempt (`none`, a raised exception) recurses on the
next attempt.  The real code has no bound, so the fuel argument only counts
how many attempts we unfold: `none` means "still retrying after `fuel`
attempts". -/
def retryNextOpponent (today : Nat) : Nat → (Nat → Option (List GameEntry)) →
    Option (Option String × Option String)
  | 0, _ => none
  | fuel + 1, fetch =>
    match fetch 0 with
    | some sched => some (get_next_opponent sched today)
    | none => retryNextOpponent today fuel (fun k => fetch (k + 1))

/-- A decoded scouting-report HTML fragment: the numeric content of its first
anchor (the statistic value) and of its first seed-classed span (the rank),
each absent when the sub-element is missing. -/
structure Fragment where
  anchorVal : Option ℚ
  seedVal : Option ℤ
  deriving DecidableEq, Repr

/-- Parsing one `(tokenCode, fragment)` pair:
`float(...find('a').contents[0])` and `int(...find('span').contents[0])` both
raise when the sub-element is missing, modelled as `none`. -/
def parseStatPair (p : String × Fragment) : Option (String × ℚ × ℤ) :=
  match p.2.anchorVal, p.2.seedVal with
  | some v, some r => some (p.1, v, r)
  | _, _ => none

/-- Python's `list(map(f, xs))` where `f` may raise: the first raising element
aborts the whole map. -/
def mapOrAbort (f : α → Option β) : List α → Option (List β)
  | [] => some []
  | a :: l =>
    match f a with
    | none => none
    | some b => (mapOrAbort f l).map (fun bs => b :: bs)

/-- The per-pair parsing stage of `get_scouting_report`: drop the first two
extracted pairs (`stats[2:]`, header artifacts) and parse the rest. -/
def extractStats (pairs : List (String × Fragment)) : Option (List (String × ℚ × ℤ)) :=
  mapOrAbort parseStatPair (pairs.drop 2)

/-- Modelled from the spec: the skip-malformed-pairs extraction the
specification describes ("that pair is skipped rather than aborting the whole
extraction"); absent from the code, stated here only for comparison. -/
def extractStatsSkipping (pairs : List (String × Fragment)) : List (String × ℚ × ℤ) :=
  (pairs.drop 2).filterMap parseStatPair

/-- A value of the scouting-report dictionary: the `''` default, a float
statistic value, or an integer rank. -/
inductive StatVal where
  | unset : StatVal
  | val : ℚ → StatVal
  | rank : ℤ → StatVal
  deriving DecidableEq, Repr

/-- The fixed closed set of statistic codes of `get_scouting_report`'s
default dictionary. -/
def statCodes : List String :=
  ["OE", "DE", "Tempo", "APLO", "APLD", "eFG", "DeFG", "TOPct", "DTOPct",
   "ORPct", "DORPct", "FTR", "DFTR", "3Pct", "D3Pct", "2Pct", "D2Pct",
   "FTPct", "DFTPct", "BlockPct", "DBlockPct", "StlRate", "DStlRate",
   "NSTRate", "DNSTRate", "3PARate", "D3PARate", "ARate", "DARate",
   "PD3", "DPD3", "PD2", "DPD2", "PD1", "DPD1"]

/-- The default `stats_df` record: every code and its `.Rank` companion
mapped to the unset value. -/
def defaultStats : List (String × StatVal) :=
  (statCodes.map (fun c => [(c, StatVal.unset), (c ++ ".Rank", StatVal.unset)])).flatten

/-- Python dict assignment `d[k] = v`: overwrite an existing key in place or
append a new one at the end. -/
def dictSet (d : List (String × StatVal)) (k : String) (v : StatVal) :
    List (String × StatVal) :=
  if d.any (fun p => p.1 == k) then d.map (fun p => if p.1 = k then (k, v) else p)
  else d ++ [(k, v)]

/-- First-match association lookup (Python dict access; keys are unique). -/
def lookupD : List (String × StatVal) → String → Option StatVal
  | [], _ => none
  | (k, v) :: d, k2 => if k2 = k then some v else lookupD d k2

/-- The overwrite loop of `get_scouting_report`: `stats_df[tok] = value` and
`stats_df[tok + '.Rank'] = rank` for each extracted stat, in order. -/
def applyStats (d : List (String × StatVal)) (stats : List (String × ℚ × ℤ)) :
    List (String × StatVal) :=
  stats.foldl
    (fun d s => dictSet (dictSet d s.1 (StatVal.val s.2.1)) (s.1 ++ ".Rank") (StatVal.rank s.2.2)) d

/-- `get_scouting_report`'s result dictionary built from the extracted
stats. -/
def scoutingStatSet (stats : List (String × ℚ × ℤ)) : List (String × StatVal) :=
  applyStats defaultStats stats

/-- Outcome of the season-validation prologue of the team-scoped scrapers:
which error is raised, or the season value actually used. -/
inductive SeasonCheck where
  | tooEarly : SeasonCheck
  | tooLate : SeasonCheck
  | ok : Int → SeasonCheck
  deriving DecidableEq, Repr

/-- Season validation of `get_scouting_report` (`season: Optional[int]`):
`if season:` is Python truthiness on an int, so `season = 0` skips the range
checks and falls back to the current season. -/
def checkSeasonScouting (current : Int) (season : Option Int) : SeasonCheck :=
  match season with
  | none => .ok current
  | some s =>
    if s ≠ 0 then
      if s < 1999 then .tooEarly
      else if s > current then .tooLate
      else .ok s
    else .ok current

/-- Season validation of `get_schedule` (`season: Optional[str]`, here the
numeral string of an integer season): a numeral string is non-empty, hence
always truthy, so every supplied numeric season is range-checked. -/
def checkSeasonSchedule (current : Int) (season : Option Int) : SeasonCheck :=
  match season with
  | none => .ok current
  | some s =>
    if (toString s).length ≠ 0 then
      if s < 1999 then .tooEarly
      else if s > current then .tooLate
      else .ok s
    else .ok current

/-- The minutes matrix located by `get_player_expanded`: one column label per
player (plus aggregate columns), one row per game, `none` an empty (NaN)
cell. -/
structure MinutesMatrix where
  cols : List String
  rows : List (List (Option ℚ))
  deriving DecidableEq, Repr

/-- The `'\xa0'` → `' '` cleanup applied to a column's player name. -/
def fixNbsp (s : String) : String :=
  String.mk (s.data.map (fun c => if c = Char.ofNat 160 then ' ' else c))

/-- The non-player aggregate columns dropped before summing a game row. -/
def keepCol (c : String) : Bool :=
  !(c == "MinutesMatrixTM") && !(c == "Starting Lineup #")

/-- `minutes_df.fillna(0)` applied to one row. -/
def fillRow (row : List (Option ℚ)) : List ℚ := row.map (fun c => c.getD 0)

/-- `minutes_df.iloc[[-x]]` after `fillna(0)`: the game `x` from the end,
provided `x` is in range (an IndexError otherwise). -/
def gameAt (m : MinutesMatrix) (x : Nat) : Option (List ℚ) :=
  if 1 ≤ x ∧ x ≤ m.rows.length then (m.rows.map fillRow)[m.rows.length - x]? else none

/-- The `Game -x` value assigned to player `p`: the value of the last kept
column whose cleaned name is `p`, read in game `-x`'s filled row; `none` when
no such column exists (the field is never assigned). -/
def gameField (m : MinutesMatrix) (p : String) (x : Nat) : Option ℚ :=
  match gameAt m x with
  | none => none
  | some g =>
    (((m.cols.zip g).filter (fun q => keepCol q.1 && (fixNbsp q.1 == p))).getLast?).map (·.2)

/-- The whole `Game -x` loop of `get_player_expanded`: the six fields are
produced only when all six `iloc[[-x]]` accesses succeed; with fewer than six
game rows the loop raises and the blanket `except` discards the whole
per-team record. -/
def playerGameFields (m : MinutesMatrix) (p : String) : Option (List (Option ℚ)) :=
  if 6 ≤ m.rows.length then some ((List.range 6).map (fun k => gameField m p (k + 1)))
  else none

/-- A game row of the concrete segmentation example. -/
def exGame (d : String) : SchedRow :=
  { date := d, teamRank := "10", oppRank := "50", oppName := "Opp",
    result := "W, 70-60", possNum := "68", location := "Home", record := "1-0",
    conference := "B10", postseason := none }

/-- A marker row of the concrete segmentation example: every cell carries the
section-header text, as `read_html` produces for spanning header rows. -/
def exMarker (d : String) : SchedRow :=
  { date := d, teamRank := d, oppRank := d, oppName := d, result := d,
    possNum := d, location := d, record := d, conference := d, postseason := none }

/-- The concrete table of the claim: markers at indices 2 and 7 whose cleaned
names are `ConfTourney` and `NCAATourney`. -/
def c1rows : List SchedRow :=
  [exGame "Mon Nov 4", exGame "Tue Nov 5",
   exMarker "ConfTourney Conference Tournament", exGame "Thu Mar 13",
   exGame "Fri Mar 14", exGame "Sat Mar 15", exGame "Sun Mar 16",
   exMarker "NCAATourney Tournament", exGame "Fri Mar 21"]

/-- Concrete minutes matrix: one player column plus the aggregate column, six
game rows, the player's entry of game `-2` (row index 4) missing. -/
def c2m : MinutesMatrix :=
  { cols := ["Smith", "MinutesMatrixTM"],
    rows := [[some 30, some 200], [some 31, some 200], [some 32, some 200],
             [some 33, some 200], [none, some 200], [some 34, some 200]] }

/-- Concrete extracted pairs: two header artifacts, a well-formed pair, a
pair whose decoded fragment has neither anchor nor seed span, and one more
well-formed pair. -/
def c3pairs : List (String × Fragment) :=
  [("hdr1", { anchorVal := some 0, seedVal := some 0 }),
   ("hdr2", { anchorVal := some 0, seedVal := some 0 }),
   ("OE", { anchorVal := some (1123/10), seedVal := some 12 }),
   ("DE", { anchorVal := none, seedVal := none }),
   ("Tempo", { anchorVal := some (671/10), seedVal := some 200 })]

/-- Concrete schedule for the next-opponent witness: one game inside the
window, one far beyond it. -/
def c7sched : List GameEntry :=
  [{ date := 3, oppName := "Purdue", result := "W, 70-60" },
   { date := 12, oppName := "Rutgers", result := "L, 55-60" }]

/-- Concrete 11-column raw table for the normalization witnesses. -/
def c9table : RawTable :=
  { ncols := 11,
    rows := [[some "Mon Nov 4", some "10", some "50", some "Opp",
              some "W, 70-60", some "68", some "a", some "Home", some "1-0",
              some "B10", some "b"]] }

theorem getElem?_assignRange (rows : List SchedRow) (lo hi : Nat) (nm : String) (j : Nat) :
    (assignRange rows lo hi nm)[j]? =
      rows[j]?.map (fun r => if lo ≤ j ∧ j ≤ hi then setPS r (some nm) else r) := by
  simp only [assignRange, List.getElem?_map, List.getElem?_enum]
  cases rows[j]? <;> rfl

theorem getElem?_assignFrom (rows : List SchedRow) (lo : Nat) (nm : String) (j : Nat) :
    (assignFrom rows lo nm)[j]? =
      rows[j]?.map (fun r => if lo ≤ j then setPS r (some nm) else r) := by
  simp only [assignFrom, List.getElem?_map, List.getElem?_enum]
  cases rows[j]? <;> rfl

theorem labelFor_of_tail_gt (a : Nat × String) (t : List (Nat × String)) (j : Nat)
    (h : ∀ p ∈ t, ¬ p.1 ≤ j) :
    labelFor (a :: t) j = if a.1 ≤ j then some a.2 else none := by
  have ht : t.filter (fun p => decide (p.1 ≤ j)) = [] := by
    simp only [List.filter_eq_nil_iff]
    intro p hp
    simpa using h p hp
  by_cases ha : a.1 ≤ j
  · simp [labelFor, List.filter_cons, ha, ht]
  · simp [labelFor, List.filter_cons, ha, ht]

theorem labelFor_cons_of_tail_le (a : Nat × String) (t : List (Nat × String)) (j : Nat)
    (h : ∃ p ∈ t, p.1 ≤ j) :
    labelFor (a :: t) j = labelFor t j := by
  obtain ⟨p, hp, hple⟩ := h
  have hne : t.filter (fun q => decide (q.1 ≤ j)) ≠ [] := by
    intro hnil
    have := List.filter_eq_nil_iff.mp hnil p hp
    simp [hple] at this
  obtain ⟨c, l', hcl⟩ := List.exists_cons_of_ne_nil hne
  by_cases ha : a.1 ≤ j
  · simp [labelFor, List.filter_cons, ha, hcl]
  · simp [labelFor, List.filter_cons, ha]

theorem labelFor_isSome_of_le (ms : List (Nat × String)) (j : Nat)
    (h : ∃ p ∈ ms, p.1 ≤ j) : ∃ nm, labelFor ms j = some nm := by
  obtain ⟨p, hp, hple⟩ := h
  have hne : ms.filter (fun q => decide (q.1 ≤ j)) ≠ [] := by
    intro hnil
    have := List.filter_eq_nil_iff.mp hnil p hp
    simp [hple] at this
  obtain ⟨c, l', hcl⟩ := List.exists_cons_of_ne_nil hne
  have : (ms.filter (fun q => decide (q.1 ≤ j))).getLast? ≠ none := by
    rw [hcl]
    simp [List.getLast?_eq_none_iff]
  obtain ⟨x, hx⟩ := Option.ne_none_iff_exists'.mp this
  exact ⟨x.2, by simp [labelFor, hx]⟩

/-- Characterization of the marker-application loop: position `j` of the result
is position `j` of the input, with its `Postseason` overwritten by the name of
the last marker at or before `j`, when one exists. -/
theorem applyMarkers_getElem? (ms : List (Nat × String)) (rows : List SchedRow) (j : Nat)
    (hs : ms.Pairwise (fun a b => a.1 < b.1)) :
    (applyMarkers rows ms)[j]? =
      rows[j]?.map (fun r =>
        match labelFor ms j with
        | some nm => setPS r (some nm)
        | none => r) := by
  induction ms generalizing rows with
  | nil =>
    simp only [applyMarkers, labelFor, List.filter_nil, List.getLast?_nil, Option.map_none']
    cases rows[j]? <;> rfl
  | cons a t ih =>
    match t with
    | [] =>
      obtain ⟨m, nm⟩ := a
      rw [show applyMarkers rows [(m, nm)] = assignFrom rows m nm from rfl]
      rw [getElem?_assignFrom]
      have : labelFor [(m, nm)] j = if m ≤ j then some nm else none := by
        by_cases hm : m ≤ j <;> simp [labelFor, List.filter_cons, hm]
      rw [this]
      by_cases hm : m ≤ j <;> simp [hm]
    | (b :: t2) =>
      obtain ⟨m, nm⟩ := a
      obtain ⟨m2, nm2⟩ := b
      have hlt : m < m2 := (List.pairwise_cons.mp hs).1 (m2, nm2) (by simp)
      have hst : ((m2, nm2) :: t2).Pairwise (fun a b => a.1 < b.1) :=
        (List.pairwise_cons.mp hs).2
      have ht2 : ∀ p ∈ t2, m2 < p.1 := (List.pairwise_cons.mp hst).1
      rw [show applyMarkers rows ((m, nm) :: (m2, nm2) :: t2) =
            applyMarkers (assignRange rows m (m2 - 1) nm) ((m2, nm2) :: t2) from rfl]
      rw [ih (assignRange rows m (m2 - 1) nm) hst, getElem?_assignRange]
      by_cases hj2 : m2 ≤ j
      · have htail : labelFor ((m, nm) :: (m2, nm2) :: t2) j = labelFor ((m2, nm2) :: t2) j :=
          labelFor_cons_of_tail_le _ _ _ ⟨(m2, nm2), by simp, hj2⟩
        obtain ⟨nm3, hnm3⟩ :=
          labelFor_isSome_of_le ((m2, nm2) :: t2) j ⟨(m2, nm2), by simp, hj2⟩
        have hno : ¬ (m ≤ j ∧ j ≤ m2 - 1) := by omega
        rw [htail, hnm3]
        cases rows[j]? with
        | none => rfl
        | some r => simp [hno, setPS]
      · have hall : ∀ p ∈ (m2, nm2) :: t2, ¬ p.1 ≤ j := by
          intro p hp
          rcases List.mem_cons.mp hp with h | h
          · subst h; exact hj2
          · have := ht2 p h; omega
        have h1 : labelFor ((m, nm) :: (m2, nm2) :: t2) j =
            if m ≤ j then some nm else none := labelFor_of_tail_gt _ _ _ hall
        have h2 : labelFor ((m2, nm2) :: t2) j = if m2 ≤ j then some nm2 else none :=
          labelFor_of_tail_gt _ _ _ (fun p hp => by have := ht2 p hp; omega)
        rw [h1, h2]
        by_cases hm : m ≤ j
        · have hle : j ≤ m2 - 1 := by omega
          simp [hj2, hm, hle]
          cases rows[j]? <;> rfl
        · have hnot : ¬ (m ≤ j ∧ j ≤ m2 - 1) := by omega
          simp [hj2, hm, hnot]

theorem findMarkersFrom_lb (rows : List SchedRow) :
    ∀ (i : Nat), ∀ p ∈ findMarkersFrom i rows, i ≤ p.1 := by
  induction rows with
  | nil => intro i p hp; simp [findMarkersFrom] at hp
  | cons r rest ih =>
    intro i p hp
    by_cases hm : isMarker r
    · rw [findMarkersFrom, if_pos hm] at hp
      rcases List.mem_cons.mp hp with h | h
      · subst h; exact Nat.le_refl i
      · have := ih (i + 1) p h; omega
    · rw [findMarkersFrom, if_neg hm] at hp
      have := ih (i + 1) p hp; omega

theorem findMarkersFrom_pairwise (rows : List SchedRow) :
    ∀ i : Nat, (findMarkersFrom i rows).Pairwise (fun a b => a.1 < b.1) := by
  induction rows with
  | nil => intro i; simp [findMarkersFrom]
  | cons r rest ih =>
    intro i
    by_cases hm : isMarker r
    · rw [findMarkersFrom, if_pos hm]
      refine List.pairwise_cons.mpr ⟨?_, ih (i + 1)⟩
      intro p hp
      have := findMarkersFrom_lb rest (i + 1) p hp
      omega
    · rw [findMarkersFrom, if_neg hm]
      exact ih (i + 1)

theorem findMarkers_pairwise (rows : List SchedRow) :
    (findMarkers rows).Pairwise (fun a b => a.1 < b.1) :=
  findMarkersFrom_pairwise rows 0

theorem findMarkersFrom_initPostseason (rows : List SchedRow) :
    ∀ i : Nat, findMarkersFrom i (initPostseason rows) = findMarkersFrom i rows := by
  induction rows with
  | nil => intro i; rfl
  | cons r rest ih =>
    intro i
    show findMarkersFrom i (setPS r none :: initPostseason rest) = _
    rw [findMarkersFrom, findMarkersFrom]
    have hm : isMarker (setPS r none) = isMarker r := rfl
    have hd : (setPS r none).date = r.date := rfl
    rw [hm, hd, ih (i + 1)]

theorem findMarkers_initPostseason (rows : List SchedRow) :
    findMarkers (initPostseason rows) = findMarkers rows :=
  findMarkersFrom_initPostseason rows 0

theorem getElem?_initPostseason (rows : List SchedRow) (j : Nat) :
    (initPostseason rows)[j]? = rows[j]?.map (fun r => setPS r none) := by
  simp [initPostseason]

/-- The segmentation stage, position by position: row `j` keeps all its data
and its `Postseason` becomes the label of the last marker at or before `j`
(or `none` when no marker lies at or before `j`). -/
theorem segmentRows_getElem? (rows : List SchedRow) (j : Nat) :
    (segmentRows rows)[j]? =
      rows[j]?.map (fun r =>
        match labelFor (findMarkers rows) j with
        | some nm => setPS r (some nm)
        | none => setPS r none) := by
  rw [segmentRows, findMarkers_initPostseason,
    applyMarkers_getElem? _ _ _ (findMarkers_pairwise rows), getElem?_initPostseason]
  cases rows[j]? with
  | none => rfl
  | some r =>
    cases labelFor (findMarkers rows) j <;> rfl

/-- `labelFor` returns the name of a marker `(mi, nmi)` that is at or before
`j` and maximal among the markers at or before `j`. -/
theorem labelFor_eq_of_max (j : Nat) :
    ∀ (ms : List (Nat × String)), ms.Pairwise (fun a b => a.1 < b.1) →
    ∀ (mi : Nat) (nmi : String), (mi, nmi) ∈ ms → mi ≤ j →
    (∀ p ∈ ms, p.1 ≤ j → p.1 ≤ mi) → labelFor ms j = some nmi := by
  intro ms
  induction ms with
  | nil => intro _ mi nmi hmem; simp at hmem
  | cons a t ih =>
    intro hs mi nmi hmem hle hmax
    have hhead : ∀ p ∈ t, a.1 < p.1 := (List.pairwise_cons.mp hs).1
    have hst : t.Pairwise (fun a b => a.1 < b.1) := (List.pairwise_cons.mp hs).2
    by_cases hex : ∃ p ∈ t, p.1 ≤ j
    · rw [labelFor_cons_of_tail_le a t j hex]
      have hmemt : (mi, nmi) ∈ t := by
        rcases List.mem_cons.mp hmem with h | h
        · exfalso
          obtain ⟨p, hp, hple⟩ := hex
          have h1 := hmax p (List.mem_cons_of_mem a hp) hple
          have h2 := hhead p hp
          have h3 : a.1 = mi := by rw [← h]
          omega
        · exact h
      exact ih hst mi nmi hmemt hle
        (fun p hp hple => hmax p (List.mem_cons_of_mem a hp) hple)
    · have hallt : ∀ p ∈ t, ¬ p.1 ≤ j := by
        intro p hp hple; exact hex ⟨p, hp, hple⟩
      rw [labelFor_of_tail_gt a t j hallt]
      have ha : a = (mi, nmi) := by
        rcases List.mem_cons.mp hmem with h | h
        · exact h.symm
        · exact absurd hle (hallt (mi, nmi) h)
      rw [ha]
      simp [hle]

/-- With sorted markers, a marker index `mi` taken from position `i` of the
marker list bounds every marker at or before row `j` whenever the next marker
(if position `i+1` exists) lies beyond `j`. -/
theorem marker_max_of_getElem? (ms : List (Nat × String))
    (hs : ms.Pairwise (fun a b => a.1 < b.1)) (i j mi : Nat) (nmi : String)
    (h0 : ms[i]? = some (mi, nmi))
    (hnext : ∀ q ∈ ms[i + 1]?, j < q.1) :
    ∀ p ∈ ms, p.1 ≤ j → p.1 ≤ mi := by
  intro p hp hple
  obtain ⟨hi, hgi⟩ := List.getElem?_eq_some.mp h0
  obtain ⟨k, hk, hpk⟩ := List.mem_iff_getElem.mp hp
  have hpair := List.pairwise_iff_getElem.mp hs
  rcases Nat.lt_trichotomy k i with hki | hki | hki
  · have := hpair k i hk hi hki
    rw [hpk, hgi] at this
    omega
  · subst hki
    rw [hgi] at hpk
    rw [← hpk]
  · exfalso
    have hi1 : i + 1 < ms.length := by omega
    have hq := hnext ms[i + 1] (by rw [List.getElem?_eq_getElem hi1]; simp)
    rcases Nat.lt_or_ge (i + 1) k with hk1 | hk1
    · have := hpair (i + 1) k hi1 hk hk1
      rw [hpk] at this
      omega
    · have hk2 : k = i + 1 := by omega
      subst hk2
      rw [hpk] at hq
      omega

/-- C1: schedule segmentation assigns postseason labels by forward
propagation.  With the marker rows of the tidied table at indices
`m_0 < m_1 < ...` (as enumerated by `findMarkers`), a row `j` lying in
`[m_i, m_(i+1))` gets marker `i`'s cleaned tournament name, a row at or after
the last marker gets the last marker's name, and a row before every marker
keeps a null `Postseason` label. -/
theorem C1_schedule_segmentation (rows : List SchedRow) (j : Nat) (hj : j < rows.length) :
    (∀ i mi nmi mi1 nmi1, (findMarkers rows)[i]? = some (mi, nmi) →
        (findMarkers rows)[i + 1]? = some (mi1, nmi1) → mi ≤ j → j < mi1 →
        ((segmentRows rows)[j]?).map (·.postseason) = some (some nmi)) ∧
    (∀ mi nmi, (findMarkers rows).getLast? = some (mi, nmi) → mi ≤ j →
        ((segmentRows rows)[j]?).map (·.postseason) = some (some nmi)) ∧
    ((∀ p ∈ findMarkers rows, j < p.1) →
        ((segmentRows rows)[j]?).map (·.postseason) = some none) := by
  obtain ⟨r, hr⟩ : ∃ r, rows[j]? = some r :=
    ⟨rows[j], List.getElem?_eq_getElem hj⟩
  have hseg := segmentRows_getElem? rows j
  rw [hr] at hseg
  have hs := findMarkers_pairwise rows
  refine ⟨?_, ?_, ?_⟩
  · intro i mi nmi mi1 nmi1 h0 h1 hle hlt
    have hmem : (mi, nmi) ∈ findMarkers rows := by
      obtain ⟨hi, hgi⟩ := List.getElem?_eq_some.mp h0
      rw [← hgi]; exact List.getElem_mem hi
    have hmax := marker_max_of_getElem? _ hs i j mi nmi h0
      (by intro q hq; rw [h1] at hq; simp at hq; subst hq; exact hlt)
    have hlab := labelFor_eq_of_max j _ hs mi nmi hmem hle hmax
    rw [hseg, hlab]
    rfl
  · intro mi nmi hlast hle
    have h0 : (findMarkers rows)[(findMarkers rows).length - 1]? = some (mi, nmi) := by
      rw [← List.getLast?_eq_getElem?]; exact hlast
    have hmem : (mi, nmi) ∈ findMarkers rows := by
      obtain ⟨hi, hgi⟩ := List.getElem?_eq_some.mp h0
      rw [← hgi]; exact List.getElem_mem hi
    have hlen : 0 < (findMarkers rows).length := by
      obtain ⟨hi, _⟩ := List.getElem?_eq_some.mp h0
      omega
    have hmax := marker_max_of_getElem? _ hs ((findMarkers rows).length - 1) j mi nmi h0
      (by
        intro q hq
        rw [List.getElem?_eq_none (by omega)] at hq
        simp at hq)
    have hlab := labelFor_eq_of_max j _ hs mi nmi hmem hle hmax
    rw [hseg, hlab]
    rfl
  · intro hall
    have hnil : (findMarkers rows).filter (fun p => decide (p.1 ≤ j)) = [] := by
      rw [List.filter_eq_nil_iff]
      intro p hp
      have := hall p hp
      simp
      omega
    have hlab : labelFor (findMarkers rows) j = none := by
      rw [labelFor, hnil]; rfl
    rw [hseg, hlab]
    rfl

/-- Witness for C1 at the claim's concrete instance: markers at indices 2 and
7 with cleaned names `ConfTourney` and `NCAATourney`; row 1 keeps a null
label, row 4 gets `ConfTourney`, row 8 gets `NCAATourney`. -/
theorem C1_schedule_segmentation_witness :
    ((segmentRows c1rows)[1]?).map (·.postseason) = some none ∧
    ((segmentRows c1rows)[4]?).map (·.postseason) = some (some "ConfTourney") ∧
    ((segmentRows c1rows)[8]?).map (·.postseason) = some (some "NCAATourney") :=
  ⟨(C1_schedule_segmentation c1rows 1 (by decide)).2.2 (by decide),
   (C1_schedule_segmentation c1rows 4 (by decide)).1 0 2 "ConfTourney" 7 "NCAATourney"
     (by decide) (by decide) (by decide) (by decide),
   (C1_schedule_segmentation c1rows 8 (by decide)).2.1 7 "NCAATourney" (by decide) (by decide)⟩

/-- C7: `get_next_opponent` checks the 4-day forward window
`[today, today+1, today+2, today+3]` (inclusive of today) in date order,
returns the first matching entry's opponent name and result token, and yields
`(none, none)` rather than an error when no window date matches. -/
theorem C7_next_opponent_window (sched : List GameEntry) (today : Nat) :
    (datesToCheck today = [today, today + 1, today + 2, today + 3]) ∧
    (∀ i g, i < 4 → (∀ j, j < i → schedLookup sched (today + j) = none) →
      schedLookup sched (today + i) = some g →
      get_next_opponent sched today = (some g.oppName, some g.result)) ∧
    ((∀ i, i < 4 → schedLookup sched (today + i) = none) →
      get_next_opponent sched today = (none, none)) := by
  refine ⟨rfl, ?_, ?_⟩
  · intro i g hi hji hlook
    show scanWindow sched [today, today + 1, today + 2, today + 3] = _
    interval_cases i
    · rw [Nat.add_zero] at hlook
      simp [scanWindow, hlook]
    · have h0 := hji 0 (by omega)
      rw [Nat.add_zero] at h0
      simp [scanWindow, h0, hlook]
    · have h0 := hji 0 (by omega)
      rw [Nat.add_zero] at h0
      have h1 := hji 1 (by omega)
      simp [scanWindow, h0, h1, hlook]
    · have h0 := hji 0 (by omega)
      rw [Nat.add_zero] at h0
      have h1 := hji 1 (by omega)
      have h2 := hji 2 (by omega)
      simp [scanWindow, h0, h1, h2, hlook]
  · intro hall
    have h0 := hall 0 (by omega)
    rw [Nat.add_zero] at h0
    have h1 := hall 1 (by omega)
    have h2 := hall 2 (by omega)
    have h3 := hall 3 (by omega)
    show scanWindow sched [today, today + 1, today + 2, today + 3] = _
    simp [scanWindow, h0, h1, h2, h3]

/-- Witness for C7: on the concrete schedule, a game two days out is found
from day 1, and from day 20 no window date matches. -/
theorem C7_next_opponent_window_witness :
    get_next_opponent c7sched 1 = (some "Purdue", some "W, 70-60") ∧
    get_next_opponent c7sched 20 = (none, none) :=
  ⟨(C7_next_opponent_window c7sched 1).2.1 2 ⟨3, "Purdue", "W, 70-60"⟩
     (by decide) (by decide) (by decide),
   (C7_next_opponent_window c7sched 20).2.2 (by decide)⟩

theorem retry_fail_forever (today : Nat) (f : Nat → Option (List GameEntry))
    (hf : ∀ k, f k = none) : ∀ fuel, retryNextOpponent today fuel f = none := by
  intro fuel
  induction fuel generalizing f with
  | zero => rfl
  | succ n ih =>
    simp only [retryNextOpponent]
    rw [hf 0]
    exact ih _ (fun k => hf (k + 1))

/-- C4 counterexample: with every fetch attempt failing, no retry budget ever
makes `get_next_opponent` surface a result or a terminal error — the claimed
bounded retry with a terminal `TransientFetchError` does not exist; the code
recurses on itself forever. -/
theorem C4_counterexample :
    ¬ ∃ fuel, retryNextOpponent 0 fuel (fun _ => none) ≠ none := by
  rintro ⟨fuel, hf⟩
  exact hf (retry_fail_forever 0 (fun _ => none) (fun _ => rfl) fuel)

/-- C4 amended: the retry of `get_next_opponent` is unbounded — under
persistent failure the resolution never returns within any number of
attempts; it returns exactly when some attempt's fetch first succeeds,
yielding that attempt's resolution. -/
theorem C4_unbounded_retry (today : Nat) (f : Nat → Option (List GameEntry)) :
    ((∀ k, f k = none) → ∀ fuel, retryNextOpponent today fuel f = none) ∧
    (∀ fuel k sched, (∀ j, j < k → f j = none) → f k = some sched → k < fuel →
      retryNextOpponent today fuel f = some (get_next_opponent sched today)) := by
  constructor
  · exact fun h => retry_fail_forever today f h
  · intro fuel
    induction fuel generalizing f with
    | zero => intro k sched _ _ hk; omega
    | succ n ih =>
      intro k sched hj hk hlt
      cases k with
      | zero =>
        simp only [retryNextOpponent]
        rw [hk]
      | succ k2 =>
        simp only [retryNextOpponent]
        rw [hj 0 (by omega)]
        exact ih _ k2 sched (fun j hjlt => hj (j + 1) (by omega)) hk (by omega)

/-- Witness for C4's amended statement: five failing attempts stay pending,
and a success at attempt 2 resolves within a budget of 5. -/
theorem C4_unbounded_retry_witness :
    retryNextOpponent 0 5 (fun _ => none) = none ∧
    retryNextOpponent 0 5 (fun k => if k == 2 then some c7sched else none) =
      some (get_next_opponent c7sched 0) :=
  ⟨(C4_unbounded_retry 0 (fun _ => none)).1 (fun _ => rfl) 5,
   (C4_unbounded_retry 0 (fun k => if k == 2 then some c7sched else none)).2 5 2 c7sched
     (by decide) (by decide) (by decide)⟩

theorem mapOrAbort_eq_none (f : α → Option β) :
    ∀ l : List α, (∃ p ∈ l, f p = none) → mapOrAbort f l = none := by
  intro l
  induction l with
  | nil => rintro ⟨p, hp, _⟩; simp at hp
  | cons a t ih =>
    rintro ⟨p, hp, hpn⟩
    rcases List.mem_cons.mp hp with h | h
    · subst h
      simp [mapOrAbort, hpn]
    · simp only [mapOrAbort]
      cases hfa : f a with
      | none => rfl
      | some b => rw [ih ⟨p, h, hpn⟩]; rfl

/-- C3 counterexample: a single malformed pair (missing anchor and seed span)
aborts the whole extraction — the code yields no result at all, where the
spec's skipping semantics would still return the two well-formed pairs. -/
theorem C3_counterexample :
    extractStats c3pairs = none ∧
    extractStatsSkipping c3pairs = [("OE", 1123/10, 12), ("Tempo", 671/10, 200)] := by
  constructor <;> rfl

/-- C3 amended: whenever any pair after the first two is malformed (its
decoded fragment misses the value anchor or the rank span), the whole
extraction aborts with no partial result. -/
theorem C3_malformed_pair_aborts (pairs : List (String × Fragment))
    (h : ∃ p ∈ pairs.drop 2, parseStatPair p = none) :
    extractStats pairs = none :=
  mapOrAbort_eq_none parseStatPair (pairs.drop 2) h

/-- Witness for C3's amended statement at the concrete pair list. -/
theorem C3_malformed_pair_aborts_witness : extractStats c3pairs = none :=
  C3_malformed_pair_aborts c3pairs
    ⟨("DE", { anchorVal := none, seedVal := none }), by decide, rfl⟩

theorem exists_zip_pair (c : String) :
    ∀ (cols : List String) (g : List ℚ), c ∈ cols → cols.length ≤ g.length →
    ∃ y : ℚ, (c, y) ∈ cols.zip g := by
  intro cols
  induction cols with
  | nil => intro g hc; simp at hc
  | cons a t ih =>
    intro g hc hlen
    cases g with
    | nil => simp at hlen
    | cons y g2 =>
      rcases List.mem_cons.mp hc with h | h
      · subst h
        exact ⟨y, List.mem_cons_self _ _⟩
      · obtain ⟨y2, hy2⟩ := ih g2 h (by simpa using hlen)
        exact ⟨y2, List.mem_cons_of_mem _ hy2⟩

/-- C2 amended: with at least six game rows, every player whose (kept,
cleaned) column appears in the minutes matrix gets all six `Game -k` fields
populated — `fillna(0)` turns missing per-game entries into `0`, so a player
with fewer than six recorded games still gets a value (zero), never an absent
field; and with fewer than six rows the whole per-team aggregation aborts. -/
theorem C2_game_fields (m : MinutesMatrix) (p : String)
    (h6 : 6 ≤ m.rows.length)
    (hw : ∀ r ∈ m.rows, r.length = m.cols.length)
    (hp : ∃ c ∈ m.cols, keepCol c ∧ fixNbsp c = p) :
    (playerGameFields m p).isSome ∧
    ∀ k, k < 6 → ∃ q : ℚ, gameField m p (k + 1) = some q := by
  constructor
  · rw [playerGameFields, if_pos h6]; rfl
  · intro k hk
    have hx2 : k + 1 ≤ m.rows.length := by omega
    have hidx : m.rows.length - (k + 1) < m.rows.length := by omega
    have hgame : gameAt m (k + 1) = some (fillRow (m.rows[m.rows.length - (k + 1)])) := by
      rw [gameAt, if_pos ⟨by omega, hx2⟩, List.getElem?_map, List.getElem?_eq_getElem hidx]
      rfl
    obtain ⟨c, hc, hkeep, hfix⟩ := hp
    have hglen : m.cols.length ≤ (fillRow (m.rows[m.rows.length - (k + 1)])).length := by
      rw [fillRow, List.length_map, hw _ (List.getElem_mem hidx)]
    obtain ⟨y, hy⟩ := exists_zip_pair c m.cols _ hc hglen
    have hmemf : (c, y) ∈ (m.cols.zip (fillRow (m.rows[m.rows.length - (k + 1)]))).filter
        (fun q2 => keepCol q2.1 && (fixNbsp q2.1 == p)) :=
      List.mem_filter.mpr ⟨hy, by simp [hkeep, hfix]⟩
    have hne := List.ne_nil_of_mem hmemf
    refine ⟨(((m.cols.zip (fillRow (m.rows[m.rows.length - (k + 1)]))).filter
        (fun q2 => keepCol q2.1 && (fixNbsp q2.1 == p))).getLast hne).2, ?_⟩
    simp only [gameField, hgame]
    rw [List.getLast?_eq_getLast _ hne]
    rfl

/-- Witness for C2's amended statement at the concrete minutes matrix. -/
theorem C2_game_fields_witness :
    (playerGameFields c2m "Smith").isSome ∧
    ∀ k, k < 6 → ∃ q : ℚ, gameField c2m "Smith" (k + 1) = some q :=
  C2_game_fields c2m "Smith" (by decide) (by decide)
    ⟨"Smith", by decide, by decide, by decide⟩

/-- C2 counterexample: in `c2m`, player `Smith` has only five recorded games
(the game `-2` entry is missing), yet the `Game -2` field is populated with
`0` rather than left absent, contradicting the claim's "absent (unset), not
set to zero". -/
theorem C2_counterexample :
    gameField c2m "Smith" 2 = some 0 ∧ ¬ gameField c2m "Smith" 2 = none := by
  refine ⟨rfl, ?_⟩
  intro h
  rw [show gameField c2m "Smith" 2 = some 0 from rfl] at h
  exact Option.noConfusion h

/-- C6: season validation.  `get_schedule`'s string-typed season is always
truthy, so it is range-checked exactly as the claim states; but
`get_scouting_report` runs `if season:` on an int, so an explicitly supplied
season `0` — below 1999, which the claim (and the function's own docstring)
says must be rejected — silently passes validation and is replaced by the
current season. -/
theorem C6_season_validation_zero :
    checkSeasonScouting 2025 (some 0) = SeasonCheck.ok 2025 ∧
    (0 : Int) < 1999 ∧
    checkSeasonSchedule 2025 (some 0) = SeasonCheck.tooEarly ∧
    checkSeasonScouting 2025 (some 1998) = SeasonCheck.tooEarly ∧
    checkSeasonScouting 2025 (some 2026) = SeasonCheck.tooLate ∧
    checkSeasonScouting 2025 (some 2020) = SeasonCheck.ok 2020 :=
  ⟨by decide, by decide, by decide, by decide, by decide, by decide⟩

theorem fieldAt_mkRow (row : List (Option String)) (k : Nat) (hk : k ∈ selIdx)
    (v : String) (hv : row.getD k none = some v) : fieldAt (mkRow row) k = v := by
  simp only [selIdx, List.mem_cons, List.not_mem_nil, or_false] at hk
  simp only [List.getD, List.get?_eq_getElem?] at hv
  rcases hk with rfl | rfl | rfl | rfl | rfl | rfl | rfl | rfl | rfl
  all_goals simp [fieldAt, mkRow, cellStr, List.getD, List.get?_eq_getElem?, hv]

theorem fieldAt_setPS (r : SchedRow) (v : Option String) (k : Nat) :
    fieldAt (setPS r v) k = fieldAt r k := by
  match k with
  | 0 => rfl
  | 1 => rfl
  | 2 => rfl
  | 3 => rfl
  | 4 => rfl
  | 5 => rfl
  | 6 => rfl
  | 7 => rfl
  | 8 => rfl
  | 9 => rfl
  | n + 10 => rfl

/-- C9: normalization is a no-op round-trip on already-complete input.  For an
11-column table the tidied rows are built from the raw rows unchanged and
every present cell survives into its field, and the default-insertion branch
changes nothing unless the table is exactly one (10-column) short. -/
theorem C9_normalize_noop (t : RawTable) :
    (t.ncols = 11 →
      tidyTable t = some (t.rows.map mkRow) ∧
      ∀ row ∈ t.rows, ∀ k ∈ selIdx, ∀ v : String,
        row.getD k none = some v → fieldAt (mkRow row) k = v) ∧
    (t.ncols ≠ 10 → t.rows.map (widenRow t.ncols) = t.rows) := by
  constructor
  · intro hn
    constructor
    · simp [tidyTable, effCols, widenRow, hn]
    · intro row _ k hk v hv
      exact fieldAt_mkRow row k hk v hv
  · intro hn
    have hwid : widenRow t.ncols = fun row => row := by
      funext row
      rw [widenRow, if_neg hn]
    rw [hwid, List.map_id']

/-- Witness for C9 at the concrete 11-column table. -/
theorem C9_normalize_noop_witness :
    tidyTable c9table = some (c9table.rows.map mkRow) ∧
    fieldAt (mkRow (c9table.rows.getD 0 [])) 3 = "Opp" ∧
    c9table.rows.map (widenRow c9table.ncols) = c9table.rows :=
  ⟨((C9_normalize_noop c9table).1 rfl).1,
   ((C9_normalize_noop c9table).1 rfl).2 (c9table.rows.getD 0 []) (by decide) 3
     (by decide) "Opp" (by decide),
   (C9_normalize_noop c9table).2 (by decide)⟩

theorem map_snd_filter_snd (pr : SchedRow → Bool) (l : List (Nat × SchedRow)) :
    (l.filter (fun p => pr p.2)).map (·.2) = (l.map (·.2)).filter pr := by
  induction l with
  | nil => rfl
  | cons a t ih =>
    cases h : pr a.2 <;> simp [List.filter_cons, h, ih]

theorem dropNonGames_map_snd (l : List (Nat × SchedRow)) :
    (dropNonGamesL l).map (·.2) =
      (l.map (·.2)).filter (fun r => !(r.date == r.result || r.date == "Date")) := by
  rw [dropNonGamesL,
    map_snd_filter_snd (fun r => !(r.date == "Date")),
    map_snd_filter_snd (fun r => !(r.date == r.result)),
    List.filter_filter]
  apply List.filter_congr
  intro r _
  cases hh1 : (r.date == r.result) <;> cases hh2 : (r.date == "Date") <;> rfl

/-- C8: a row of the segmented table is dropped exactly when its `Date` equals
its own `Result` or its `Date` is the literal header token `"Date"`; the
remaining rows keep their original order and are reindexed `0..N-1`. -/
theorem C8_drop_and_reindex (rows : List SchedRow) :
    ((cleanStage rows).map (·.2) =
      rows.filter (fun r => !(r.date == r.result || r.date == "Date"))) ∧
    ((cleanStage rows).map (·.1) = List.range (cleanStage rows).length) := by
  constructor
  · rw [cleanStage, resetIndex, List.enum_map_snd, dropNonGames_map_snd, List.enum_map_snd]
  · rw [cleanStage, resetIndex, List.enum_map_fst, List.enum_length]

/-- C10: `get_schedule` never rewrites game data.  Every retained output row
comes from a raw row of the located table, and every present cell of that raw
row (laid out in the 11-column layout, with the season-drift widening applied)
appears unchanged in the corresponding retained field; the pipeline only adds
the `Postseason` column, fills missing cells, and drops whole rows. -/
theorem C10_frame (t : RawTable) (res : List (Nat × SchedRow))
    (h : get_schedule t = some res) (p : Nat × SchedRow) (hp : p ∈ res) :
    ∃ row ∈ t.rows, ∀ k ∈ selIdx, ∀ v : String,
      (widenRow t.ncols row).getD k none = some v → fieldAt p.2 k = v := by
  rw [get_schedule] at h
  obtain ⟨rows0, hrows0, hres⟩ := Option.map_eq_some'.mp h
  have hrows0' : rows0 = (t.rows.map (widenRow t.ncols)).map mkRow := by
    rw [tidyTable] at hrows0
    split at hrows0
    · exact (Option.some.inj hrows0).symm
    · exact Option.noConfusion hrows0
  subst hres
  have hp2 : p.2 ∈ (segmentRows rows0).filter
      (fun r => !(r.date == r.result || r.date == "Date")) := by
    have hm := List.mem_map_of_mem (·.2) hp
    rw [cleanStage, resetIndex, List.enum_map_snd, dropNonGames_map_snd,
      List.enum_map_snd] at hm
    exact hm
  have hp3 : p.2 ∈ segmentRows rows0 := List.mem_of_mem_filter hp2
  obtain ⟨j, hj, hgj⟩ := List.mem_iff_getElem.mp hp3
  have hchar := segmentRows_getElem? rows0 j
  rw [List.getElem?_eq_getElem hj, hgj] at hchar
  obtain ⟨r0, hr0, hval⟩ := Option.map_eq_some'.mp hchar.symm
  rw [hrows0', List.getElem?_map, List.getElem?_map] at hr0
  obtain ⟨w, hw1, hw2⟩ := Option.map_eq_some'.mp hr0
  obtain ⟨raw, hraw1, hraw2⟩ := Option.map_eq_some'.mp hw1
  obtain ⟨hjraw, hjraw2⟩ := List.getElem?_eq_some.mp hraw1
  refine ⟨raw, by rw [← hjraw2]; exact List.getElem_mem hjraw, ?_⟩
  intro k hk v hv
  rw [hraw2] at hv
  cases hlab : labelFor (findMarkers rows0) j with
  | some nm =>
    simp only [hlab] at hval
    rw [← hval, fieldAt_setPS, ← hw2]
    exact fieldAt_mkRow w k hk v hv
  | none =>
    simp only [hlab] at hval
    rw [← hval, fieldAt_setPS, ← hw2]
    exact fieldAt_mkRow w k hk v hv

/-- Witness for C10 at the concrete table: the single retained row of
`c9table`'s pipeline output preserves every present raw cell. -/
theorem C10_frame_witness :
    ∃ row ∈ c9table.rows, ∀ k ∈ selIdx, ∀ v : String,
      (widenRow c9table.ncols row).getD k none = some v →
      fieldAt (mkRow (c9table.rows.getD 0 [])) k = v :=
  C10_frame c9table
    (cleanStage (segmentRows ((c9table.rows.map (widenRow c9table.ncols)).map mkRow)))
    rfl (0, mkRow (c9table.rows.getD 0 [])) (by decide)

theorem lookupD_mapUpdate (k k2 : String) (v : StatVal) :
    ∀ d : List (String × StatVal),
    lookupD (d.map (fun p => if p.1 = k then (k, v) else p)) k2 =
      if k2 = k then (if d.any (fun p => p.1 == k) then some v else none)
      else lookupD d k2 := by
  intro d
  induction d with
  | nil => by_cases h : k2 = k <;> simp [lookupD, h]
  | cons a t ih =>
    rw [List.map_cons]
    by_cases hak : a.1 = k
    · rw [if_pos hak]
      by_cases hk2 : k2 = k
      · simp [lookupD, hak, hk2, List.any_cons]
      · simp [lookupD, hak, hk2, ih]
    · rw [if_neg hak]
      by_cases hk2a : k2 = a.1
      · have hk2k : ¬ k2 = k := by rw [hk2a]; exact hak
        simp [lookupD, hak, hk2a, hk2k, List.any_cons]
      · have hbeq : (a.1 == k) = false := by simp [hak]
        simp only [lookupD, List.any_cons, hbeq, Bool.false_or, ih]
        rw [if_neg hk2a]
        by_cases hk2 : k2 = k
        · rw [if_pos hk2, if_pos hk2]
        · rw [if_neg hk2, if_neg hk2, if_neg hk2a]

theorem lookupD_appendSingle (k k2 : String) (v : StatVal) :
    ∀ d : List (String × StatVal), d.any (fun p => p.1 == k) = false →
    lookupD (d ++ [(k, v)]) k2 = if k2 = k then some v else lookupD d k2 := by
  intro d
  induction d with
  | nil => intro _; by_cases h : k2 = k <;> simp [lookupD, h]
  | cons a t ih =>
    intro hany
    rw [List.any_cons] at hany
    have ha : (a.1 == k) = false := by
      cases h : (a.1 == k)
      · rfl
      · rw [h] at hany; simp at hany
    have ht : t.any (fun p => p.1 == k) = false := by
      cases h : t.any (fun p => p.1 == k)
      · rfl
      · rw [h] at hany; simp at hany
    have hak : ¬ a.1 = k := by simpa using ha
    by_cases hk2a : k2 = a.1
    · have hk2k : ¬ k2 = k := by
        intro he
        exact hak (hk2a.symm.trans he)
      simp [lookupD, List.cons_append, hk2a, hk2k, hak]
    · simp [lookupD, List.cons_append, hk2a, ih ht]

theorem lookupD_dictSet (d : List (String × StatVal)) (k k2 : String) (v : StatVal) :
    lookupD (dictSet d k v) k2 = if k2 = k then some v else lookupD d k2 := by
  rw [dictSet]
  by_cases hany : d.any (fun p => p.1 == k) = true
  · rw [if_pos hany, lookupD_mapUpdate]
    by_cases h : k2 = k <;> simp [h, hany]
  · have hany2 : d.any (fun p => p.1 == k) = false := by
      cases h : d.any (fun p => p.1 == k)
      · rfl
      · exact absurd h hany
    rw [if_neg hany, lookupD_appendSingle k k2 v d hany2]

theorem isSome_lookupD_dictSet (d : List (String × StatVal)) (k k2 : String) (v : StatVal)
    (h : (lookupD d k2).isSome = true) : (lookupD (dictSet d k v) k2).isSome = true := by
  rw [lookupD_dictSet]
  by_cases hk : k2 = k <;> simp [hk, h]

theorem lookupD_applyStats_isSome (stats : List (String × ℚ × ℤ)) :
    ∀ (d : List (String × StatVal)) (k : String),
    (lookupD d k).isSome = true → (lookupD (applyStats d stats) k).isSome = true := by
  induction stats with
  | nil => intro d k h; exact h
  | cons s t ih =>
    intro d k h
    simp only [applyStats, List.foldl_cons] at ih ⊢
    exact ih _ k (isSome_lookupD_dictSet _ _ _ _ (isSome_lookupD_dictSet _ _ _ _ h))

theorem lookupD_applyStats_untouched (stats : List (String × ℚ × ℤ)) :
    ∀ (d : List (String × StatVal)) (k : String),
    (∀ s ∈ stats, s.1 ≠ k ∧ s.1 ++ ".Rank" ≠ k) →
    lookupD (applyStats d stats) k = lookupD d k := by
  induction stats with
  | nil => intro d k _; rfl
  | cons s t ih =>
    intro d k h
    simp only [applyStats, List.foldl_cons] at ih ⊢
    rw [ih _ k (fun s2 hs2 => h s2 (List.mem_cons_of_mem s hs2))]
    rw [lookupD_dictSet, lookupD_dictSet]
    have h1 := (h s (List.mem_cons_self s t)).1
    have h2 := (h s (List.mem_cons_self s t)).2
    rw [if_neg (Ne.symm h2), if_neg (Ne.symm h1)]

theorem defaultStats_lookup :
    ∀ c ∈ statCodes, lookupD defaultStats c = some StatVal.unset ∧
      lookupD defaultStats (c ++ ".Rank") = some StatVal.unset := by decide

theorem statCodes_dotFree : ∀ c ∈ statCodes, ¬ ('.' ∈ c.data) := by decide

theorem dot_mem_append_rank (a : String) : '.' ∈ (a ++ ".Rank").data := by
  rw [String.data_append]
  exact List.mem_append_right _ (by decide)

theorem append_rank_inj (a b : String) (h : a ++ ".Rank" = b ++ ".Rank") : a = b := by
  apply String.ext
  have hd : a.data ++ ".Rank".data = b.data ++ ".Rank".data := by
    rw [← String.data_append, ← String.data_append, h]
  exact List.append_cancel_right hd

/-- C5: the mapping built by `get_scouting_report` always contains every code
of the fixed closed code set together with its `.Rank` companion — no key is
ever missing, even when zero pairs were extracted — and any code whose pair is
absent from the page keeps the empty default value. -/
theorem C5_default_stat_set (stats : List (String × ℚ × ℤ))
    (hdot : ∀ s ∈ stats, ¬ ('.' ∈ s.1.data)) (code : String) (hc : code ∈ statCodes) :
    (lookupD (scoutingStatSet stats) code).isSome = true ∧
    (lookupD (scoutingStatSet stats) (code ++ ".Rank")).isSome = true ∧
    ((∀ s ∈ stats, s.1 ≠ code) →
      lookupD (scoutingStatSet stats) code = some StatVal.unset ∧
      lookupD (scoutingStatSet stats) (code ++ ".Rank") = some StatVal.unset) := by
  have hdef := defaultStats_lookup code hc
  have hcdot := statCodes_dotFree code hc
  refine ⟨?_, ?_, ?_⟩
  · exact lookupD_applyStats_isSome stats defaultStats code (by rw [hdef.1]; rfl)
  · exact lookupD_applyStats_isSome stats defaultStats (code ++ ".Rank") (by rw [hdef.2]; rfl)
  · intro habs
    constructor
    · have hunt : lookupD (applyStats defaultStats stats) code = lookupD defaultStats code :=
        lookupD_applyStats_untouched stats defaultStats code (by
          intro s hs
          refine ⟨habs s hs, ?_⟩
          intro he
          exact hcdot (he ▸ dot_mem_append_rank s.1))
      rw [scoutingStatSet, hunt, hdef.1]
    · have hunt : lookupD (applyStats defaultStats stats) (code ++ ".Rank") =
          lookupD defaultStats (code ++ ".Rank") :=
        lookupD_applyStats_untouched stats defaultStats (code ++ ".Rank") (by
          intro s hs
          constructor
          · intro he
            apply hdot s hs
            rw [he]
            exact dot_mem_append_rank code
          · intro he
            exact habs s hs (append_rank_inj s.1 code he))
      rw [scoutingStatSet, hunt, hdef.2]

/-- Witness for C5 on the empty extraction (zero extracted pairs) at code
`OE`. -/
theorem C5_default_stat_set_witness :
    (lookupD (scoutingStatSet []) "OE").isSome = true ∧
    (lookupD (scoutingStatSet []) ("OE" ++ ".Rank")).isSome = true ∧
    ((∀ s ∈ ([] : List (String × ℚ × ℤ)), s.1 ≠ "OE") →
      lookupD (scoutingStatSet []) "OE" = some StatVal.unset ∧
      lookupD (scoutingStatSet []) ("OE" ++ ".Rank") = some StatVal.unset) :=
  C5_default_stat_set [] (by simp) "OE" (by decide)

end Kenpompy
